import Mathlib

/-!
Verification of the session-registry and streaming-event core of the
repository (src/src-tauri/src/pty.rs and src/src-tauri/src/watcher.rs).

The Rust code is embedded shallowly: registries (HashMap behind a mutex)
become association lists over Nat ids, bytes become Nat, and every external
effect (pty reads and writes, the native watcher, pgrep and lsof, file
reads) is passed in explicitly as data, so all definitions are executable.
-/

namespace Ade

/-- Events a PTY session sends on its channel (enum PtyEvent in pty.rs). -/
inductive PtyEvent where
  | output (data : List Nat)
  | exit
  | error (message : String)
  deriving DecidableEq, Repr

/-- One result of the blocking read in the background thread of create_pty:
ok bytes models Ok(n) returning the first n bytes of the buffer (ok [] is
Ok(0), clean EOF), err msg models Err(e). -/
inductive ReadResult where
  | ok (bytes : List Nat)
  | err (msg : String)
  deriving DecidableEq, Repr

/-- An observable action of the background thread: an event sent on the
channel, or removal of the session from the registry. -/
inductive ThreadAction where
  | send (e : PtyEvent)
  | removeSession
  deriving DecidableEq, Repr

/-- The loop in the thread spawned by create_pty (pty.rs lines 112-127):
read until Ok(0) or Err; a read of n > 0 bytes sends Output with exactly
those bytes, a read error sends Error once and stops. The Bool records
whether the loop exited; it is false when the given read results are
exhausted with the loop still blocked on the next read. -/
def readLoop : List ReadResult → List ThreadAction × Bool
  | [] => ([], false)
  | .ok [] :: _ => ([], true)
  | .ok (b :: bs) :: rest =>
      ((.send (.output (b :: bs))) :: (readLoop rest).1, (readLoop rest).2)
  | .err m :: _ => ([.send (.error m)], true)

/-- The whole background thread of create_pty (pty.rs lines 110-131): the
read loop, then, once the loop has exited, removal of the session from the
registry followed by a single Exit event. -/
def ptyThread (reads : List ReadResult) : List ThreadAction :=
  if (readLoop reads).2 then
    (readLoop reads).1 ++ [.removeSession, .send .exit]
  else
    (readLoop reads).1

/-- Every action of the read loop proper is a send of an Output or Error
event: never Exit, never a registry removal. -/
theorem readLoop_actions (reads : List ReadResult) :
    ∀ a ∈ (readLoop reads).1,
      (∃ bs, a = ThreadAction.send (.output bs)) ∨
      (∃ m, a = ThreadAction.send (.error m)) := by
  induction reads with
  | nil => intro a ha; simp [readLoop] at ha
  | cons r rest ih =>
    intro a ha
    match r with
    | .ok [] => simp [readLoop] at ha
    | .ok (b :: bs) =>
      simp only [readLoop, List.mem_cons] at ha
      rcases ha with rfl | ha
      · exact Or.inl ⟨b :: bs, rfl⟩
      · exact ih a ha
    | .err m =>
      simp only [readLoop, List.mem_singleton] at ha
      subst ha
      exact Or.inr ⟨m, rfl⟩

/-- Claim C1: when the read loop terminates (zero-length read or read
error), the background thread first removes the session from the registry
and only then sends exactly one Exit event; Exit is the last action, so no
Output or Error event follows it. -/
theorem pty_exit_last (reads : List ReadResult)
    (h : (readLoop reads).2 = true) :
    ∃ pre,
      ptyThread reads = pre ++ [ThreadAction.removeSession,
        ThreadAction.send PtyEvent.exit] ∧
      (∀ a ∈ pre, a ≠ ThreadAction.removeSession ∧
        a ≠ ThreadAction.send PtyEvent.exit) ∧
      (ptyThread reads).count (ThreadAction.send PtyEvent.exit) = 1 := by
  refine ⟨(readLoop reads).1, ?_, ?_, ?_⟩
  · simp [ptyThread, h]
  · intro a ha
    rcases readLoop_actions reads a ha with ⟨bs, rfl⟩ | ⟨m, rfl⟩ <;>
      exact ⟨by simp, by simp⟩
  · have hpre : (readLoop reads).1.count (ThreadAction.send PtyEvent.exit) = 0 := by
      rw [List.count_eq_zero]
      intro hmem
      rcases readLoop_actions reads _ hmem with ⟨bs, hb⟩ | ⟨m, hm⟩ <;> simp_all
    simp [ptyThread, h, List.count_append, hpre]

/-- Witness for C1 on a concrete read stream: one 3-byte read, then EOF. -/
theorem pty_exit_last_witness :
    ∃ pre,
      ptyThread [ReadResult.ok [104, 105, 10], ReadResult.ok []] =
        pre ++ [ThreadAction.removeSession, ThreadAction.send PtyEvent.exit] ∧
      (∀ a ∈ pre, a ≠ ThreadAction.removeSession ∧
        a ≠ ThreadAction.send PtyEvent.exit) ∧
      (ptyThread [ReadResult.ok [104, 105, 10], ReadResult.ok []]).count
        (ThreadAction.send PtyEvent.exit) = 1 :=
  pty_exit_last [ReadResult.ok [104, 105, 10], ReadResult.ok []] (by decide)

/-! ## The session registry

Both managers keep a HashMap from u32 id to session behind a mutex; the
mutex serialises every access, so each command is one atomic step on the
map. The map is embedded as an association list with at most one binding
per id (insert replaces, remove deletes). -/

/-- The registry map: id to session. -/
def Reg (α : Type) : Type := List (Nat × α)

/-- HashMap get: the value bound to an id, if any. -/
def Reg.find {α : Type} : Reg α → Nat → Option α
  | [], _ => none
  | (k, v) :: r, id => if k = id then some v else Reg.find r id

/-- HashMap remove: drop every binding of the id. -/
def Reg.remove {α : Type} : Reg α → Nat → Reg α
  | [], _ => []
  | (k, v) :: r, id =>
      if k = id then Reg.remove r id else (k, v) :: Reg.remove r id

/-- HashMap insert: bind the id, replacing any previous binding. -/
def Reg.insert {α : Type} (r : Reg α) (id : Nat) (v : α) : Reg α :=
  (id, v) :: Reg.remove r id

theorem Reg.find_remove_self {α : Type} (r : Reg α) (id : Nat) :
    Reg.find (Reg.remove r id) id = none := by
  induction r with
  | nil => rfl
  | cons p r ih =>
    obtain ⟨k, v⟩ := p
    by_cases hk : k = id <;> simp [Reg.remove, Reg.find, hk, ih]

theorem Reg.remove_absent {α : Type} (r : Reg α) (id : Nat)
    (h : Reg.find r id = none) : Reg.remove r id = r := by
  induction r with
  | nil => rfl
  | cons p r ih =>
    obtain ⟨k, v⟩ := p
    by_cases hk : k = id
    · simp [Reg.find, hk] at h
    · simp only [Reg.find, hk, if_false] at h
      simp [Reg.remove, hk, ih h]

theorem Reg.find_insert_self {α : Type} (r : Reg α) (id : Nat) (v : α) :
    Reg.find (Reg.insert r id v) id = some v := by
  simp [Reg.insert, Reg.find]

/-! ## The PTY manager -/

/-- A registered PTY session (struct PtyInstance in pty.rs). The writer is
embedded as the sequence of bytes successfully delivered to it so far; the
child and master handles carry no state the claims depend on; the pid is
the best-effort OS process id kept for introspection. -/
structure PtyInstance where
  delivered : List Nat
  pid : Option Nat
  deriving DecidableEq, Repr

/-- The externally determined behaviour of one write_all-and-flush call on
the pty writer: success delivers the whole byte sequence; a write error
leaves an unspecified (partially written) byte run behind, per the
write_all contract; a flush error occurs after the full write. -/
inductive WriteOutcome where
  | success
  | writeErr (written : List Nat) (msg : String)
  | flushErr (msg : String)
  deriving DecidableEq, Repr

/-- write_pty (pty.rs lines 137-151): look the id up; when present, run
write_all(data) then flush() with the given external outcome, propagating
an error; an absent id is a successful no-op. Returns the command result
and the updated registry. -/
def write_pty (reg : Reg PtyInstance) (id : Nat) (data : List Nat)
    (out : WriteOutcome) : Except String Unit × Reg PtyInstance :=
  match Reg.find reg id with
  | none => (.ok (), reg)
  | some inst =>
    match out with
    | .success =>
        (.ok (), Reg.insert reg id
          { inst with delivered := inst.delivered ++ data })
    | .writeErr w m =>
        (.error m, Reg.insert reg id
          { inst with delivered := inst.delivered ++ w })
    | .flushErr m =>
        (.error m, Reg.insert reg id
          { inst with delivered := inst.delivered ++ data })

/-- resize_pty (pty.rs lines 154-173): look the id up; when present, ask
the master pty to resize, with the given external outcome; an absent id is
a successful no-op. The registry is never changed. -/
def resize_pty (reg : Reg PtyInstance) (id : Nat) (rows cols : Nat)
    (out : Except String Unit) : Except String Unit × Reg PtyInstance :=
  match Reg.find reg id with
  | none => (.ok (), reg)
  | some _ => (out, reg)

/-- kill_pty (pty.rs lines 176-180): unconditionally remove the id from the
registry (dropping the session kills the child) and return success. -/
def kill_pty (reg : Reg PtyInstance) (id : Nat) :
    Except String Unit × Reg PtyInstance :=
  (.ok (), Reg.remove reg id)

/-- Claim C2: on an id absent from the registry, write_pty, resize_pty and
kill_pty each return success and leave the registry unchanged; and after
kill_pty (on any registry), the id is gone and every subsequent write,
resize or kill of that id is a no-op returning success. -/
theorem absent_id_noop (reg : Reg PtyInstance) (id : Nat) :
    (Reg.find reg id = none →
      (∀ data out, write_pty reg id data out = (Except.ok (), reg)) ∧
      (∀ rows cols out,
        resize_pty reg id rows cols out = (Except.ok (), reg)) ∧
      kill_pty reg id = (Except.ok (), reg)) ∧
    ((kill_pty reg id).1 = Except.ok () ∧
      Reg.find (kill_pty reg id).2 id = none ∧
      (∀ data out, write_pty (kill_pty reg id).2 id data out =
        (Except.ok (), (kill_pty reg id).2)) ∧
      (∀ rows cols out, resize_pty (kill_pty reg id).2 id rows cols out =
        (Except.ok (), (kill_pty reg id).2)) ∧
      kill_pty (kill_pty reg id).2 id =
        (Except.ok (), (kill_pty reg id).2)) := by
  have habs : ∀ r : Reg PtyInstance, Reg.find r id = none →
      (∀ data out, write_pty r id data out = (Except.ok (), r)) ∧
      (∀ rows cols out, resize_pty r id rows cols out = (Except.ok (), r)) ∧
      kill_pty r id = (Except.ok (), r) := by
    intro r h
    refine ⟨?_, ?_, ?_⟩
    · intro data out; simp [write_pty, h]
    · intro rows cols out; simp [resize_pty, h]
    · simp [kill_pty, Reg.remove_absent r id h]
  have hgone : Reg.find (kill_pty reg id).2 id = none := by
    simpa [kill_pty] using Reg.find_remove_self reg id
  exact ⟨habs reg, rfl, hgone,
    (habs _ hgone).1, (habs _ hgone).2.1, (habs _ hgone).2.2⟩

/-- Witness for C2 at a concrete registry holding ids 1 and 2, queried at
the absent id 5, and a kill of id 1. -/
theorem absent_id_noop_witness :
    write_pty [(1, PtyInstance.mk [] none), (2, PtyInstance.mk [7] (some 9))]
        5 [3, 4] WriteOutcome.success =
      (Except.ok (),
        [(1, PtyInstance.mk [] none), (2, PtyInstance.mk [7] (some 9))]) ∧
    Reg.find (kill_pty
        [(1, PtyInstance.mk [] none), (2, PtyInstance.mk [7] (some 9))] 1).2
        1 = none :=
  ⟨((absent_id_noop
      [(1, PtyInstance.mk [] none), (2, PtyInstance.mk [7] (some 9))] 5).1
      (by decide)).1 [3, 4] WriteOutcome.success,
    ((absent_id_noop
      [(1, PtyInstance.mk [] none), (2, PtyInstance.mk [7] (some 9))] 1).2).2.1⟩

/-- A sequence of write_pty calls on one id, every call with a successful
external write outcome, folded over the registry. -/
def writeSeq (reg : Reg PtyInstance) (id : Nat) :
    List (List Nat) → Reg PtyInstance
  | [] => reg
  | d :: ds => writeSeq (write_pty reg id d .success).2 id ds

theorem writeSeq_delivered (id : Nat) (ds : List (List Nat)) :
    ∀ (reg : Reg PtyInstance) (inst : PtyInstance),
      Reg.find reg id = some inst →
      Reg.find (writeSeq reg id ds) id =
        some { inst with delivered := inst.delivered ++ ds.flatten } := by
  induction ds with
  | nil => intro reg inst h; simpa [writeSeq] using h
  | cons d ds ih =>
    intro reg inst h
    have hstep : (write_pty reg id d .success).2 =
        Reg.insert reg id { inst with delivered := inst.delivered ++ d } := by
      simp [write_pty, h]
    have hfind : Reg.find (write_pty reg id d .success).2 id =
        some { inst with delivered := inst.delivered ++ d } := by
      rw [hstep]; exact Reg.find_insert_self ..
    have := ih (write_pty reg id d .success).2 _ hfind
    simpa [writeSeq, List.append_assoc] using this

/-- Claim C4: a single write_pty on a registered id returns success and
appends exactly the given bytes to the writer (write_all retries partial
writes; an error outcome propagates), and a sequence of successful writes
delivers the concatenation of all the byte sequences in call order. -/
theorem write_pty_concat (reg : Reg PtyInstance) (id : Nat)
    (inst : PtyInstance) (h : Reg.find reg id = some inst) :
    (∀ data, write_pty reg id data .success =
      (Except.ok (), Reg.insert reg id
        { inst with delivered := inst.delivered ++ data })) ∧
    (∀ data w m, (write_pty reg id data (.writeErr w m)).1 =
      Except.error m) ∧
    (∀ ds, Reg.find (writeSeq reg id ds) id =
      some { inst with delivered := inst.delivered ++ ds.flatten }) := by
  refine ⟨?_, ?_, ?_⟩
  · intro data; simp [write_pty, h]
  · intro data w m; simp [write_pty, h]
  · intro ds; exact writeSeq_delivered id ds reg inst h

/-- Witness for C4: two writes on a live session deliver the bytes of both
calls, concatenated in call order. -/
theorem write_pty_concat_witness :
    Reg.find (writeSeq [(1, PtyInstance.mk [10] none)] 1 [[1, 2], [3]]) 1 =
      some (PtyInstance.mk [10, 1, 2, 3] none) :=
  (write_pty_concat [(1, PtyInstance.mk [10] none)] 1
      (PtyInstance.mk [10] none) (by decide)).2.2 [[1, 2], [3]]

/-! ## Id allocation (claim C3)

create_pty and watch_directory allocate ids identically: lock the next_id
counter, take its value, increment (pty.rs lines 89-94, watcher.rs lines
115-120). Both managers start their own counter at 1 (PtyManager.new,
WatcherManager.new). The mutex makes each allocation atomic, so every
concurrent execution is some interleaving, i.e. a sequence, of these
atomic steps; the model runs an arbitrary such sequence, with removals
(kill_pty / unwatch_directory) interleaved arbitrarily. -/

/-- Manager state: the registry and the next_id counter behind their
mutexes. The session payload is abstracted by α (PtyInstance for the PTY
manager, the watcher handle for the watch manager). -/
structure Manager (α : Type) where
  instances : Reg α
  next_id : Nat

/-- A fresh manager: empty map, counter at 1 (PtyManager.new in pty.rs,
WatcherManager.new in watcher.rs). -/
def Manager.new (α : Type) : Manager α := ⟨[], 1⟩

/-- The id-allocation critical section: return the u32 counter value and
increment it; the increment of the u32 next_id wraps at 2 ^ 32, as the
`next += 1` of the source does in release builds. -/
def allocId {α : Type} (st : Manager α) : Nat × Manager α :=
  (st.next_id, { st with next_id := (st.next_id + 1) % 2 ^ 32 })

/-- One atomic registry step of a manager, as serialised by the mutex:
a successful create (allocate an id, insert the session) or a removal. -/
inductive MgrOp (α : Type) where
  | create (v : α)
  | remove (id : Nat)

/-- Run a sequence of manager steps, collecting the ids handed out by the
create steps in order. -/
def runOps {α : Type} : Manager α → List (MgrOp α) → Manager α × List Nat
  | st, [] => (st, [])
  | st, .create v :: rest =>
      let (id, st') := allocId st
      let st'' : Manager α :=
        { st' with instances := Reg.insert st'.instances id v }
      ((runOps st'' rest).1, id :: (runOps st'' rest).2)
  | st, .remove id :: rest =>
      runOps { st with instances := Reg.remove st.instances id } rest

/-- The number of create steps in a sequence. -/
def createCount {α : Type} : List (MgrOp α) → Nat
  | [] => 0
  | .create _ :: rest => createCount rest + 1
  | .remove _ :: rest => createCount rest

/-- The ids handed out by n successive wrapping allocations starting from
counter value c. -/
def idSeq : Nat → Nat → List Nat
  | _, 0 => []
  | c, n + 1 => c :: idSeq ((c + 1) % 2 ^ 32) n

theorem runOps_ids {α : Type} (ops : List (MgrOp α)) :
    ∀ st : Manager α,
      (runOps st ops).2 = idSeq st.next_id (createCount ops) := by
  induction ops with
  | nil => intro st; rfl
  | cons op rest ih =>
    intro st
    match op with
    | .create v =>
      simp only [runOps, createCount, allocId, idSeq]
      exact congrArg _ (ih _)
    | .remove id =>
      simp only [runOps, createCount]
      exact ih _

theorem idSeq_range' (n : Nat) : ∀ c : Nat, c + n ≤ 2 ^ 32 →
    idSeq c n = List.range' c n := by
  induction n with
  | zero => intro c _; rfl
  | succ m ih =>
    intro c hc
    rw [idSeq, List.range'_succ]
    cases m with
    | zero => rfl
    | succ j =>
      have h1 : (c + 1) % 2 ^ 32 = c + 1 := Nat.mod_eq_of_lt (by omega)
      rw [h1, ih (c + 1) (by omega)]

theorem idSeq_map (n : Nat) : ∀ c : Nat, c < 2 ^ 32 →
    idSeq c n = (List.range n).map (fun k => (c + k) % 2 ^ 32) := by
  induction n with
  | zero => intro c _; rfl
  | succ m ih =>
    intro c hc
    have hmod : (c + 1) % 2 ^ 32 < 2 ^ 32 := Nat.mod_lt _ (by norm_num)
    rw [idSeq, ih ((c + 1) % 2 ^ 32) hmod, List.range_succ_eq_map,
      List.map_cons, List.map_map]
    refine congrArg₂ _ (Nat.mod_eq_of_lt hc).symm ?_
    apply List.map_congr_left
    intro k _
    rw [Nat.mod_add_mod]
    congr 1
    omega

theorem createCount_replicate {α : Type} (v : α) :
    ∀ n, createCount (List.replicate n (MgrOp.create v)) = n := by
  intro n
  induction n with
  | zero => rfl
  | succ m ih => simp [List.replicate_succ, createCount, ih]

/-- A run of 2 ^ 32 + 1 successful creates on one manager: enough to wrap
the u32 id counter past its starting value. -/
def wrapOps : List (MgrOp Nat) := List.replicate (2 ^ 32 + 1) (MgrOp.create 0)

/-- Counterexample to C3 as stated: the u32 counter wraps, so after
2 ^ 32 + 1 creates the first id (1) has been handed out twice — the ids of
an unbounded create sequence are neither pairwise distinct nor strictly
increasing, and an id is reused. -/
theorem ids_wrap_counterexample :
    ¬ (runOps (Manager.new Nat) wrapOps).2.Nodup ∧
    ¬ List.Pairwise (· < ·) (runOps (Manager.new Nat) wrapOps).2 := by
  have hids : (runOps (Manager.new Nat) wrapOps).2 =
      (List.range (2 ^ 32 + 1)).map (fun k => (1 + k) % 2 ^ 32) := by
    rw [runOps_ids, wrapOps, createCount_replicate]
    exact idSeq_map (2 ^ 32 + 1) 1 (by norm_num)
  have hlen : (runOps (Manager.new Nat) wrapOps).2.length = 2 ^ 32 + 1 := by
    rw [hids, List.length_map, List.length_range]
  have hnodup : ¬ (runOps (Manager.new Nat) wrapOps).2.Nodup := by
    intro hn
    have h0 : (runOps (Manager.new Nat) wrapOps).2[(0 : Nat)]? = some 1 := by
      rw [hids, List.getElem?_map, List.getElem?_range (by omega)]
      norm_num
    have hN : (runOps (Manager.new Nat) wrapOps).2[2 ^ 32]? = some 1 := by
      rw [hids, List.getElem?_map, List.getElem?_range (by omega)]
      rw [Option.map_some', Nat.add_mod_right]
      norm_num
    have hij := List.getElem?_inj (by rw [hlen]; omega) hn (h0.trans hN.symm)
    omega
  exact ⟨hnodup, fun hp => hnodup (hp.imp ne_of_lt)⟩

/-- Claim C3 amended: from a fresh manager, as long as fewer than 2 ^ 32
ids have been handed out (the u32 counter wraps there), any sequence of
atomic create steps with arbitrary interleaved removals hands out exactly
the ids 1, 2, ... in order: they start at 1, strictly increase, are
pairwise distinct, and are never reused after a removal; and the ids of
any manager are a function of its own counter alone, so the id spaces of
the PTY manager and the watch manager are independent. -/
theorem ids_wrap_strict_mono {α β : Type} (ops : List (MgrOp α)) :
    (createCount ops < 2 ^ 32 →
      (runOps (Manager.new α) ops).2 = List.range' 1 (createCount ops) ∧
      List.Pairwise (· < ·) (runOps (Manager.new α) ops).2 ∧
      (runOps (Manager.new α) ops).2.Nodup) ∧
    (∀ (st : Manager α) (st' : Manager β), st.next_id = st'.next_id →
      ∀ ops' : List (MgrOp β), createCount ops = createCount ops' →
        (runOps st ops).2 = (runOps st' ops').2) := by
  constructor
  · intro hlt
    have h1 : (runOps (Manager.new α) ops).2 =
        List.range' 1 (createCount ops) := by
      rw [runOps_ids]
      exact idSeq_range' (createCount ops) 1 (by omega)
    refine ⟨h1, ?_, ?_⟩
    · rw [h1]; exact List.pairwise_lt_range' ..
    · rw [h1]; exact List.nodup_range' ..
  · intro st st' hnext ops' hcnt
    rw [runOps_ids ops st, runOps_ids ops' st', hnext, hcnt]

/-- Witness for the amended C3: three creates with a removal of id 2 in
between still hand out 1, 2, 3; the independence part instantiated at two
managers of matching counters. -/
theorem ids_wrap_strict_mono_witness :
    (runOps (Manager.new Nat)
      [MgrOp.create 7, MgrOp.create 8, MgrOp.remove 2, MgrOp.create 9]).2 =
      [1, 2, 3] ∧
    (runOps (Manager.new Nat) [MgrOp.create 7]).2 =
      (runOps (Manager.new Bool) [MgrOp.create true]).2 :=
  ⟨((@ids_wrap_strict_mono Nat Nat
      [MgrOp.create 7, MgrOp.create 8, MgrOp.remove 2, MgrOp.create 9]).1
      (by decide)).1.trans (by decide),
   (@ids_wrap_strict_mono Nat Bool [MgrOp.create 7]).2
      (Manager.new Nat) (Manager.new Bool) rfl [MgrOp.create true] rfl⟩

/-! ## The child command built by create_pty (claim C5) -/

/-- The parent process environment as std::env::var sees it: a partial map
from variable name to value. -/
abbrev Env := String → Option String

/-- The env(key, value) calls create_pty performs on the command builder
(pty.rs lines 68-80), in call order: TERM=xterm-256color always, then each
of HOME, USER, PATH and LANG exactly when set in the parent environment.
These are overrides, not the whole child environment: the external
portable_pty CommandBuilder::new seeds its environment from the full
parent environment, and create_pty never clears that base. -/
def envCalls (penv : Env) : List (String × String) :=
  let e0 := [("TERM", "xterm-256color")]
  let e1 := match penv "HOME" with
    | some h => e0 ++ [("HOME", h)]
    | none => e0
  let e2 := match penv "USER" with
    | some u => e1 ++ [("USER", u)]
    | none => e1
  let e3 := match penv "PATH" with
    | some p => e2 ++ [("PATH", p)]
    | none => e2
  match penv "LANG" with
  | some l => e3 ++ [("LANG", l)]
  | none => e3

/-- The command handed to spawn_command: program, arguments, working
directory, and the explicit environment overrides, in call order. The
CommandBuilder type itself lives in the external portable_pty crate; this
records the configuration create_pty performs on it. -/
structure CmdBuilder where
  program : String
  args : List String
  cwd : Option String
  env : List (String × String)
  deriving DecidableEq, Repr

/-- The command construction in create_pty (pty.rs lines 58-80): the shell
from SHELL defaulting to /bin/zsh, invoked as a login shell; the working
directory from the caller, else HOME, else unset; and the explicit
environment overrides of envCalls. -/
def buildCmd (penv : Env) (cwd : Option String) : CmdBuilder :=
  let shell := (penv "SHELL").getD "/bin/zsh"
  let cmdCwd : Option String :=
    match cwd with
    | some dir => some dir
    | none => penv "HOME"
  ⟨shell, ["-l"], cmdCwd, envCalls penv⟩

/-- The environment of the spawned child: the builder environment seeded
by the external CommandBuilder::new from the full parent environment, with
the explicit env calls of create_pty overriding their keys. -/
def childEnv (penv : Env) (k : String) : Option String :=
  match (envCalls penv).lookup k with
  | some v => some v
  | none => penv k

/-- The allow-listed conditional variables, in the order they are copied. -/
def allowKeys : List String := ["HOME", "USER", "PATH", "LANG"]

theorem mem_filterMap_env (penv : Env) (k v : String) :
    ∀ keys : List String,
      ((k, v) ∈ keys.filterMap (fun a => (penv a).map (fun w => (a, w)))) ↔
        k ∈ keys ∧ penv k = some v := by
  intro keys
  induction keys with
  | nil => simp
  | cons a rest ih =>
    cases ha : penv a with
    | none =>
      simp only [List.filterMap_cons, ha, Option.map_none', ih,
        List.mem_cons]
      constructor
      · rintro ⟨hk, hv⟩; exact ⟨Or.inr hk, hv⟩
      · rintro ⟨hk | hk, hv⟩
        · subst hk; rw [ha] at hv; cases hv
        · exact ⟨hk, hv⟩
    | some w =>
      simp only [List.filterMap_cons, ha, Option.map_some', List.mem_cons,
        ih, Prod.mk.injEq]
      constructor
      · rintro (⟨hk, hv⟩ | ⟨hk, hv⟩)
        · subst hk; subst hv; exact ⟨Or.inl rfl, ha⟩
        · exact ⟨Or.inr hk, hv⟩
      · rintro ⟨hk | hk, hv⟩
        · subst hk; rw [ha] at hv
          exact Or.inl ⟨rfl, (Option.some.inj hv).symm⟩
        · exact Or.inr ⟨hk, hv⟩

theorem envCalls_eq (penv : Env) :
    envCalls penv = ("TERM", "xterm-256color") ::
      allowKeys.filterMap (fun a => (penv a).map (fun w => (a, w))) := by
  cases hH : penv "HOME" <;> cases hU : penv "USER" <;>
    cases hP : penv "PATH" <;> cases hL : penv "LANG" <;>
    simp [envCalls, allowKeys, hH, hU, hP, hL]

theorem lookup_filterMap_env (penv : Env) (k : String) :
    ∀ keys : List String,
      (keys.filterMap (fun a => (penv a).map (fun w => (a, w)))).lookup k =
        if k ∈ keys then penv k else none := by
  intro keys
  induction keys with
  | nil => simp
  | cons a rest ih =>
    by_cases hk : k = a
    · subst hk
      cases ha : penv k with
      | none => simp [List.filterMap_cons, ha, ih]
      | some w => simp [List.filterMap_cons, ha, List.lookup]
    · have hb : (k == a) = false := by simpa using hk
      cases ha : penv a with
      | none => simp [List.filterMap_cons, ha, ih, hk]
      | some w => simp [List.filterMap_cons, ha, List.lookup, hb, hk, ih]

/-- A parent environment with HOME set, TERM set to dumb, USER unset. -/
def envA : Env := fun k =>
  if k = "HOME" then some "/root"
  else if k = "TERM" then some "dumb" else none

/-- Like envA but with EDITOR set instead of TERM: the two differ only in
variables outside the allow-list and SHELL. -/
def envB : Env := fun k =>
  if k = "HOME" then some "/root"
  else if k = "EDITOR" then some "vi" else none

/-- Counterexample to C5 as stated: EDITOR is outside the allow-list, yet
with the builder environment inherited from the parent (portable_pty
CommandBuilder::new) the spawned child of envB keeps EDITOR=vi, so the
child environment neither omits every other parent variable nor is
independent of parent variables outside the set: envA and envB agree on
SHELL, HOME, USER, PATH and LANG but give different child environments. -/
theorem child_env_not_allowlist :
    envA "SHELL" = envB "SHELL" ∧ envA "HOME" = envB "HOME" ∧
    envA "USER" = envB "USER" ∧ envA "PATH" = envB "PATH" ∧
    envA "LANG" = envB "LANG" ∧
    "EDITOR" ≠ "TERM" ∧ ("EDITOR" ∉ allowKeys) ∧
    childEnv envA "EDITOR" = none ∧
    childEnv envB "EDITOR" = some "vi" := by decide

/-- Claim C5 amended: the explicit environment configuration of create_pty
is exactly the curated allow-list — TERM=xterm-256color plus each of HOME,
USER, PATH and LANG when set in the parent — but these are overrides on
the inherited base environment, not a replacement for it: the spawned
child environment is the full parent environment with TERM overridden to
xterm-256color (the four conditional calls re-set their inherited parent
values), so every other parent variable is kept, not omitted. -/
theorem child_env_term_override (penv : Env) :
    childEnv penv "TERM" = some "xterm-256color" ∧
    (∀ k, k ≠ "TERM" → childEnv penv k = penv k) ∧
    (∀ k v, (k, v) ∈ envCalls penv ↔
      (k = "TERM" ∧ v = "xterm-256color") ∨
      (k ∈ allowKeys ∧ penv k = some v)) := by
  refine ⟨?_, ?_, ?_⟩
  · simp [childEnv, envCalls_eq, List.lookup]
  · intro k hk
    have hbeq : (k == "TERM") = false := by simpa using hk
    have hlook : (envCalls penv).lookup k =
        if k ∈ allowKeys then penv k else none := by
      rw [envCalls_eq]
      simp [List.lookup, hbeq, lookup_filterMap_env]
    simp only [childEnv, hlook]
    by_cases hm : k ∈ allowKeys
    · rw [if_pos hm]
      cases hp : penv k <;> simp
    · rw [if_neg hm]
  · intro k v
    rw [envCalls_eq]
    simp only [List.mem_cons, mem_filterMap_env, Prod.mk.injEq]

/-- Witness for the amended C5 at the concrete parent environment envB:
TERM is overridden and the out-of-list variable EDITOR is inherited
unchanged. -/
theorem child_env_term_override_witness :
    childEnv envB "TERM" = some "xterm-256color" ∧
    childEnv envB "EDITOR" = envB "EDITOR" :=
  ⟨(child_env_term_override envB).1,
    (child_env_term_override envB).2.1 "EDITOR" (by decide)⟩

/-! ## The watch manager (watcher.rs) -/

/-- Per-character lower-casing of a string (str::to_lowercase as used here:
extension strings, compared character by character). -/
def lowerStr (s : String) : String := String.mk (s.data.map Char.toLower)

/-- A filesystem path as the watcher callback sees it: the lossy string
form used in emitted events, and the file extension when the path has one
and it is valid UTF-8 (extension().and_then(to_str); ext = none covers
both a missing extension and a non-UTF-8 one). -/
structure FsPath where
  str : String
  ext : Option String
  deriving DecidableEq, Repr

/-- The kind of a raw OS notification (notify::EventKind, collapsed to the
four cases the callback distinguishes). -/
inductive EventKind where
  | create
  | modify
  | remove
  | other
  deriving DecidableEq, Repr

/-- A raw OS event: its kind and affected paths. -/
structure RawEvent where
  kind : EventKind
  paths : List FsPath
  deriving DecidableEq, Repr

/-- Events a watch session sends on its channel (enum WatchEvent in
watcher.rs). -/
inductive WatchEvent where
  | changed (path : String) (content : String)
  | created (path : String)
  | removed (path : String)
  | error (message : String)
  deriving DecidableEq, Repr

/-- The path filter in the watcher callback (watcher.rs lines 60-68): an
empty extension set matches everything; otherwise the lower-cased
extension must be in the set, and a path without a usable extension never
matches. -/
def extFilter (ext_set : List String) (p : FsPath) : Bool :=
  if ext_set.isEmpty then true
  else
    match p.ext with
    | some e => ext_set.contains (lowerStr e)
    | none => false

/-- The callback installed by watch_directory, on a successfully delivered
raw event (watcher.rs lines 56-99): filter the paths, drop the event
entirely if none survives, else send one typed event per surviving path
according to the event kind. readFile p is std::fs::read_to_string(p):
some s on success, none on any read failure. -/
def watchCallback (ext_set : List String)
    (readFile : FsPath → Option String) (event : RawEvent) :
    List WatchEvent :=
  let paths := event.paths.filter (extFilter ext_set)
  if paths.isEmpty then []
  else
    paths.flatMap (fun p =>
      match event.kind with
      | .create => [.created p.str]
      | .modify => [.changed p.str ((readFile p).getD "")]
      | .remove => [.removed p.str]
      | .other => [])

/-- The whole callback, including the error branch (watcher.rs lines
100-105): a failed notification result is surfaced as one Error event. -/
def watchCallbackRes (ext_set : List String)
    (readFile : FsPath → Option String) :
    Except String RawEvent → List WatchEvent
  | .ok event => watchCallback ext_set readFile event
  | .error e => [.error e]

theorem list_bind_single {α β : Type} (f : α → β) (l : List α) :
    (l.flatMap (fun a => [f a])) = l.map f := by
  induction l with
  | nil => rfl
  | cons a t ih =>
    simp only [List.flatMap_cons, ih, List.singleton_append, List.map_cons]

theorem watchCallback_eq_bind (ext_set : List String)
    (readFile : FsPath → Option String) (k : EventKind) (ps : List FsPath) :
    watchCallback ext_set readFile ⟨k, ps⟩ =
      (ps.filter (extFilter ext_set)).flatMap (fun p =>
        match k with
        | .create => [WatchEvent.created p.str]
        | .modify => [WatchEvent.changed p.str ((readFile p).getD "")]
        | .remove => [WatchEvent.removed p.str]
        | .other => []) := by
  unfold watchCallback
  by_cases h : (ps.filter (extFilter ext_set)).isEmpty
  · rw [List.isEmpty_iff] at h
    simp [h]
  · simp [h]

theorem watchCallback_create (ext_set : List String)
    (readFile : FsPath → Option String) (ps : List FsPath) :
    watchCallback ext_set readFile ⟨.create, ps⟩ =
      (ps.filter (extFilter ext_set)).map
        (fun p => WatchEvent.created p.str) := by
  rw [watchCallback_eq_bind]; exact list_bind_single ..

theorem watchCallback_modify (ext_set : List String)
    (readFile : FsPath → Option String) (ps : List FsPath) :
    watchCallback ext_set readFile ⟨.modify, ps⟩ =
      (ps.filter (extFilter ext_set)).map
        (fun p => WatchEvent.changed p.str ((readFile p).getD "")) := by
  rw [watchCallback_eq_bind]; exact list_bind_single ..

theorem watchCallback_remove (ext_set : List String)
    (readFile : FsPath → Option String) (ps : List FsPath) :
    watchCallback ext_set readFile ⟨.remove, ps⟩ =
      (ps.filter (extFilter ext_set)).map
        (fun p => WatchEvent.removed p.str) := by
  rw [watchCallback_eq_bind]; exact list_bind_single ..

theorem watchCallback_other (ext_set : List String)
    (readFile : FsPath → Option String) (ps : List FsPath) :
    watchCallback ext_set readFile ⟨.other, ps⟩ = [] := by
  rw [watchCallback_eq_bind]
  induction ps.filter (extFilter ext_set) with
  | nil => rfl
  | cons a t ih => simpa [List.flatMap] using ih

/-- Claim C6: with the set lower-cased at watch time, a path matches the
filter exactly when the set was empty or the lower-cased extension is in
the lower-cased set (so matching is case-insensitive on both sides); a raw
event none of whose paths survive is dropped entirely; and each surviving
path produces exactly one typed event per the kind, other kinds nothing. -/
theorem watch_filter_and_map (exts : List String) :
    (∀ p : FsPath, extFilter (exts.map lowerStr) p = true ↔
      (exts = [] ∨ ∃ pe, p.ext = some pe ∧
        lowerStr pe ∈ exts.map lowerStr)) ∧
    (∀ (ext_set : List String) (s s' : String) (pe pe' : String),
      lowerStr pe = lowerStr pe' →
      extFilter ext_set ⟨s, some pe⟩ = extFilter ext_set ⟨s', some pe'⟩) ∧
    (∀ (readFile : FsPath → Option String) (k : EventKind) (ps : List FsPath),
      ps.filter (extFilter (exts.map lowerStr)) = [] →
      watchCallback (exts.map lowerStr) readFile ⟨k, ps⟩ = []) ∧
    (∀ (readFile : FsPath → Option String) (ps : List FsPath),
      watchCallback (exts.map lowerStr) readFile ⟨.create, ps⟩ =
        (ps.filter (extFilter (exts.map lowerStr))).map
          (fun p => WatchEvent.created p.str) ∧
      watchCallback (exts.map lowerStr) readFile ⟨.modify, ps⟩ =
        (ps.filter (extFilter (exts.map lowerStr))).map
          (fun p => WatchEvent.changed p.str ((readFile p).getD "")) ∧
      watchCallback (exts.map lowerStr) readFile ⟨.remove, ps⟩ =
        (ps.filter (extFilter (exts.map lowerStr))).map
          (fun p => WatchEvent.removed p.str) ∧
      watchCallback (exts.map lowerStr) readFile ⟨.other, ps⟩ = []) := by
  refine ⟨?_, ?_, ?_, ?_⟩
  · intro p
    cases hx : exts with
    | nil => simp [extFilter]
    | cons e rest =>
      cases hp : p.ext with
      | none => simp [extFilter, hp]
      | some pe =>
        simp [extFilter, hp]
  · intro ext_set s s' pe pe' h
    simp [extFilter, h]
  · intro readFile k ps h
    rw [watchCallback_eq_bind, h]
    rfl
  · intro readFile ps
    exact ⟨watchCallback_create .., watchCallback_modify ..,
      watchCallback_remove .., watchCallback_other ..⟩

/-- Witness for C6: with set ["md"], the path notes.MD matches, a txt path
does not, and an event on the txt path alone is dropped. -/
theorem watch_filter_and_map_witness :
    extFilter (["md"].map lowerStr) ⟨"notes.MD", some "MD"⟩ = true ∧
    extFilter (["md"].map lowerStr) ⟨"notes.txt", some "txt"⟩ = false ∧
    watchCallback (["md"].map lowerStr) (fun _ => none)
      ⟨.create, [⟨"notes.txt", some "txt"⟩]⟩ = [] :=
  ⟨((watch_filter_and_map ["md"]).1 ⟨"notes.MD", some "MD"⟩).2
      (Or.inr ⟨"MD", rfl, by decide⟩),
    by decide,
    (watch_filter_and_map ["md"]).2.2.1 (fun _ => none) .create
      [⟨"notes.txt", some "txt"⟩] (by decide)⟩

/-- Claim C7: a modify event yields, for every surviving path, exactly one
Changed event whose content is the read_to_string result, the empty string
when the read fails; a read failure never yields an Error event and never
suppresses the Changed event. -/
theorem changed_content_best_effort (ext_set : List String)
    (readFile : FsPath → Option String) (ps : List FsPath) :
    (watchCallback ext_set readFile ⟨.modify, ps⟩ =
      (ps.filter (extFilter ext_set)).map
        (fun p => WatchEvent.changed p.str ((readFile p).getD ""))) ∧
    (∀ p : FsPath, p ∈ ps → extFilter ext_set p = true → readFile p = none →
      WatchEvent.changed p.str "" ∈
        watchCallback ext_set readFile ⟨.modify, ps⟩) ∧
    (∀ m : String, WatchEvent.error m ∉
      watchCallback ext_set readFile ⟨.modify, ps⟩) := by
  refine ⟨watchCallback_modify .., ?_, ?_⟩
  · intro p hp hf hr
    rw [watchCallback_modify]
    have : p ∈ ps.filter (extFilter ext_set) := List.mem_filter.2 ⟨hp, hf⟩
    have h := List.mem_map_of_mem
      (fun p => WatchEvent.changed p.str ((readFile p).getD "")) this
    simpa [hr] using h
  · intro m hm
    rw [watchCallback_modify] at hm
    obtain ⟨p, _, hp⟩ := List.mem_map.1 hm
    cases hp

/-- Witness for C7: one matching path whose read fails emits exactly a
Changed event with empty content and no Error event. -/
theorem changed_content_best_effort_witness :
    WatchEvent.changed "a.md" "" ∈
      watchCallback ["md"] (fun _ => none) ⟨.modify, [⟨"a.md", some "md"⟩]⟩ ∧
    WatchEvent.error "x" ∉
      watchCallback ["md"] (fun _ => none) ⟨.modify, [⟨"a.md", some "md"⟩]⟩ :=
  ⟨(changed_content_best_effort ["md"] (fun _ => none)
      [⟨"a.md", some "md"⟩]).2.1 ⟨"a.md", some "md"⟩ (by decide) (by decide)
      rfl,
    (changed_content_best_effort ["md"] (fun _ => none)
      [⟨"a.md", some "md"⟩]).2.2 "x"⟩

/-- watch_directory (watcher.rs lines 39-128), up to the parts the claims
touch: fail when dir is not an existing directory, then when creating the
native watcher fails, then when installing the recursive watch fails; in
every failure case the state is untouched; otherwise allocate an id,
register the watcher under it and return it. isDir is the Path::is_dir
probe; createRes and installRes are the external native-watcher results.
The extension list is normalised to lowerStr form for the callback, which
is modelled by watchCallback. -/
def watch_directory (st : Manager Unit) (dir : String) (isDir : Bool)
    (extensions : List String) (createRes installRes : Except String Unit) :
    Except String Nat × Manager Unit :=
  if !isDir then (.error ("Not a directory: " ++ dir), st)
  else
    match createRes with
    | .error e => (.error ("Failed to create watcher: " ++ e), st)
    | .ok _ =>
      match installRes with
      | .error e => (.error ("Failed to watch " ++ dir ++ ": " ++ e), st)
      | .ok _ =>
        let (id, st') := allocId st
        (.ok id, { st' with instances := Reg.insert st'.instances id () })

/-- unwatch_directory (watcher.rs lines 131-138): remove the id, dropping
the native watch, and return success. -/
def unwatch_directory (st : Manager Unit) (id : Nat) :
    Except String Unit × Manager Unit :=
  (.ok (), { st with instances := Reg.remove st.instances id })

/-- Claim C8: watch_directory on a non-directory fails and leaves the
manager (registry and id counter) untouched; a native watcher creation or
watch-install failure likewise returns the error with no session
registered. -/
theorem watch_failure_no_session (st : Manager Unit) (dir : String)
    (extensions : List String) :
    (∀ cr ir, ∃ m, watch_directory st dir false extensions cr ir =
      (Except.error m, st)) ∧
    (∀ e ir, ∃ m, watch_directory st dir true extensions (.error e) ir =
      (Except.error m, st)) ∧
    (∀ e, ∃ m, watch_directory st dir true extensions (.ok ()) (.error e) =
      (Except.error m, st)) := by
  refine ⟨?_, ?_, ?_⟩
  · intro cr ir
    exact ⟨"Not a directory: " ++ dir, rfl⟩
  · intro e ir
    exact ⟨"Failed to create watcher: " ++ e, rfl⟩
  · intro e
    exact ⟨"Failed to watch " ++ dir ++ ": " ++ e, rfl⟩

/-- Claim C10: under a non-empty (normalised) extension set, a path with
no usable extension never matches the filter, so no event of any kind,
removals included, is ever emitted for it: such paths can be deleted from
any raw event without changing the callback output, and an event touching
only such paths emits nothing. -/
theorem no_ext_never_matches (exts : List String) (hne : exts ≠ []) :
    (∀ s : String, extFilter (exts.map lowerStr) ⟨s, none⟩ = false) ∧
    (∀ (k : EventKind) (readFile : FsPath → Option String) (s : String),
      watchCallback (exts.map lowerStr) readFile ⟨k, [⟨s, none⟩]⟩ = []) ∧
    (∀ (k : EventKind) (readFile : FsPath → Option String)
        (ps : List FsPath),
      watchCallback (exts.map lowerStr) readFile ⟨k, ps⟩ =
        watchCallback (exts.map lowerStr) readFile
          ⟨k, ps.filter (fun p => p.ext.isSome)⟩) := by
  have hset : (exts.map lowerStr).isEmpty = false := by
    cases exts with
    | nil => exact absurd rfl hne
    | cons e rest => rfl
  have hnone : ∀ s : String, extFilter (exts.map lowerStr) ⟨s, none⟩ = false := by
    intro s
    simp [extFilter, hset]
  refine ⟨hnone, ?_, ?_⟩
  · intro k readFile s
    rw [watchCallback_eq_bind]
    simp [List.filter, hnone s]
  · intro k readFile ps
    rw [watchCallback_eq_bind, watchCallback_eq_bind]
    have hfilter : ps.filter (extFilter (exts.map lowerStr)) =
        (ps.filter (fun p => p.ext.isSome)).filter
          (extFilter (exts.map lowerStr)) := by
      rw [List.filter_filter]
      apply List.filter_congr
      intro p _
      cases hp : p.ext with
      | none =>
        have := hnone p.str
        simp only [extFilter, hset, Bool.false_eq_true, if_false] at *
        simp [hp]
      | some pe => simp [hp, extFilter, hset]
    rw [hfilter]

/-- Witness for C10 with set ["md"]: a remove event on an extension-less
path emits nothing. -/
theorem no_ext_never_matches_witness :
    watchCallback (["md"].map lowerStr) (fun _ => none)
      ⟨.remove, [⟨"Makefile", none⟩]⟩ = [] :=
  (no_ext_never_matches ["md"] (by decide)).2.1 .remove (fun _ => none)
    "Makefile"

/-! ## Process introspection (claim C9)

get_pty_cwd shells out to pgrep and lsof; the visible OS state is a
process table listing, in spawn order (the order pgrep prints), each
process with its pid, parent pid and the cwd its fd table reports. -/

/-- One OS process as pgrep and lsof see it: pid, parent pid, and the
current working directory from its open-file-descriptor table (none when
lsof cannot report one for it). -/
structure OsProc where
  pid : Nat
  ppid : Nat
  cwd : Option String
  deriving DecidableEq, Repr

/-- The visible process table, in spawn order. -/
abbrev OsTable := List OsProc

/-- pgrep -P p: the pids of the direct children of p, in table order. -/
def pgrepChildren (os : OsTable) (p : Nat) : List Nat :=
  (os.filter (fun q => q.ppid == p)).map (fun q => q.pid)

/-- get_foreground_pid (pty.rs lines 211-228): run pgrep -P shell_pid and
take the last listed child, the most recently spawned one; none when there
is no child (pgrep exits nonzero). -/
def get_foreground_pid (os : OsTable) (shell_pid : Nat) : Option Nat :=
  (pgrepChildren os shell_pid).getLast?

/-- The lsof -a -d cwd -p p -Fn call distilled: the cwd recorded for p,
none when the process is unknown or lsof yields no n line. -/
def lsofCwd (os : OsTable) (p : Nat) : Option String :=
  match os.find? (fun q => q.pid == p) with
  | some q => q.cwd
  | none => none

/-- get_pty_cwd (pty.rs lines 183-208): error when the id is unknown or
has no recorded pid; otherwise query the cwd of the foreground pid, namely
the last direct child of the shell pid with the shell pid itself as
fallback, and error when that query fails. -/
def get_pty_cwd (os : OsTable) (reg : Reg PtyInstance) (id : Nat) :
    Except String String :=
  match Reg.find reg id with
  | none => .error "PTY not found"
  | some inst =>
    match inst.pid with
    | none => .error "No PID"
    | some pid =>
      match lsofCwd os ((get_foreground_pid os pid).getD pid) with
      | some path => .ok path
      | none => .error "CWD not found in lsof output"

/-- Whether p descends from root in the table, climbing parent links with
the given fuel (the table is finite, so fuel = table length reaches every
ancestor). -/
def descendsWithin (os : OsTable) (root : Nat) : Nat → Nat → Bool
  | 0, _ => false
  | fuel + 1, p =>
    match os.find? (fun q => q.pid == p) with
    | none => false
    | some q => q.ppid == root || descendsWithin os root fuel q.ppid

/-- Modelled from the spec: whether p is a descendant, at any depth, of
root ("walking the process tree rooted at the session pid"). -/
def isDescendant (os : OsTable) (root p : Nat) : Bool :=
  descendsWithin os root os.length p

/-- Modelled from the spec: the most-recently-spawned descendant of root
anywhere in the process tree, the table being in spawn order; the process
the claim says get_pty_cwd queries. -/
def mostRecentDescendant (os : OsTable) (root : Nat) : Option Nat :=
  ((os.filter (fun q => isDescendant os root q.pid)).map
    (fun q => q.pid)).getLast?

/-- A shell (pid 100) whose direct child 200 spawned a later grandchild
300; the three have distinct working directories. -/
def osCx : OsTable :=
  [⟨100, 1, some "/shell"⟩, ⟨200, 100, some "/a"⟩, ⟨300, 200, some "/b"⟩]

/-- A registry holding one session, id 1, recorded shell pid 100. -/
def regCx : Reg PtyInstance := [(1, ⟨[], some 100⟩)]

/-- Counterexample to C9 as stated: pgrep -P lists direct children only,
so the code reads the cwd of the child 200, while the most-recently-
spawned descendant of the shell is the grandchild 300, whose cwd differs. -/
theorem get_pty_cwd_not_descendant :
    get_pty_cwd osCx regCx 1 = Except.ok "/a" ∧
    mostRecentDescendant osCx 100 = some 300 ∧
    lsofCwd osCx 300 = some "/b" ∧
    get_pty_cwd osCx regCx 1 ≠ Except.ok "/b" := by
  refine ⟨rfl, rfl, rfl, ?_⟩
  intro h
  rw [show get_pty_cwd osCx regCx 1 = Except.ok "/a" from rfl] at h
  exact absurd (Except.ok.inj h) (by decide)

/-- Claim C9 amended: get_pty_cwd fails exactly when the session id is
unknown, the session has no recorded pid, or the lsof query on the target
fails; the target is the most-recently-spawned (last-listed) direct child
of the shell pid, not searched deeper in the tree, with the shell pid as
fallback when it has no children, and the result is the cwd lsof reports
for that target. -/
theorem get_pty_cwd_spec (os : OsTable) (reg : Reg PtyInstance) (id : Nat) :
    ((∃ m, get_pty_cwd os reg id = Except.error m) ↔
      (Reg.find reg id = none ∨
        (∃ inst, Reg.find reg id = some inst ∧ inst.pid = none) ∨
        (∃ inst pid, Reg.find reg id = some inst ∧ inst.pid = some pid ∧
          lsofCwd os ((get_foreground_pid os pid).getD pid) = none))) ∧
    (∀ inst pid path, Reg.find reg id = some inst → inst.pid = some pid →
      lsofCwd os ((get_foreground_pid os pid).getD pid) = some path →
      get_pty_cwd os reg id = Except.ok path) := by
  constructor
  · cases hf : Reg.find reg id with
    | none => simp [get_pty_cwd, hf]
    | some inst =>
      cases hp : inst.pid with
      | none => simp [get_pty_cwd, hf, hp]
      | some pid =>
        cases hc : lsofCwd os ((get_foreground_pid os pid).getD pid) with
        | none => simp [get_pty_cwd, hf, hp, hc]
        | some path => simp [get_pty_cwd, hf, hp, hc]
  · intro inst pid path hf hp hc
    simp [get_pty_cwd, hf, hp, hc]

/-- Witness for the amended C9 at the concrete table: the session resolves
to the cwd of the last direct child of the shell. -/
theorem get_pty_cwd_spec_witness :
    get_pty_cwd osCx regCx 1 = Except.ok "/a" :=
  (get_pty_cwd_spec osCx regCx 1).2 ⟨[], some 100⟩ 100 "/a" rfl rfl rfl

end Ade
